import Mathlib

/-!
Verification of the kreeda engine core (window session, GPU surface,
application handler, input latches) against its specification.

The Rust sources are shallowly embedded:

* `KeyInput` models `src/input/key_listener.rs`.  The Rust `HashSet<Key>`
  fields become `Finset Key` with `Key := ℕ` standing for winit logical
  key identifiers.
* `MouseInput` models `src/input/mouse_listener.rs`.  The Rust `f64`
  scalars become `ℚ` (the claims never depend on rounding), and the
  `[bool; 3]` button array becomes `Fin 3 → Bool`.
* `GpuState` models the swapchain-relevant part of
  `src/engine/window.rs`; the side effect `surface.configure(..)` is
  recorded as a log of the configurations applied to the surface.
* `redraw_step` models the `RedrawRequested` arm of `App::window_event`,
  taking the result of `render()` as input and returning the new GPU
  state together with the exit-requested flag.

The event vocabulary mirrors the winit events the listeners match on.
-/

namespace Kreeda

/-- Logical key identifiers (winit `Key`), modelled as natural numbers. -/
def Key : Type := ℕ

instance : DecidableEq Key := inferInstanceAs (DecidableEq ℕ)

instance : OfNat Key n := ⟨(n : ℕ)⟩

/-- winit `ElementState`. -/
inductive ElementState where
  | Pressed
  | Released
deriving DecidableEq

/-- winit `MouseButton`, restricted to the variants the listener distinguishes:
`Left`, `Right`, `Middle` and a catch-all for every other button. -/
inductive MouseButton where
  | Left
  | Right
  | Middle
  | OtherButton
deriving DecidableEq

/-- winit `MouseScrollDelta`: a line delta or a pixel delta, each carrying a
horizontal and a vertical component. -/
inductive MouseScrollDelta where
  | LineDelta (x y : ℚ)
  | PixelDelta (x y : ℚ)
deriving DecidableEq

/-- The window events the input listeners match on (all other window events
fall into the wildcard arm `other`). -/
inductive WindowEvent where
  | KeyboardInput (state : ElementState) (logical_key : Key)
  | CursorMoved (x y : ℚ)
  | MouseInputEv (state : ElementState) (button : MouseButton)
  | MouseWheel (delta : MouseScrollDelta)
  | other
deriving DecidableEq

/-! ## Key latch (`src/input/key_listener.rs`) -/

/-- State of `KeyInput`: three sets of logical keys. -/
structure KeyInput where
  keys_pressed : Finset Key
  keys_just_pressed : Finset Key
  keys_just_released : Finset Key
deriving DecidableEq

namespace KeyInput

/-- `KeyInput::new`: all three sets empty. -/
def new : KeyInput := ⟨∅, ∅, ∅⟩

/-- `KeyInput::handle_event`.  On a press: insert into `keys_just_pressed`
only if the key is not already in `keys_pressed`, then insert into
`keys_pressed`.  On a release: remove from `keys_pressed` and insert into
`keys_just_released`.  All other window events are ignored. -/
def handle_event (ev : WindowEvent) (s : KeyInput) : KeyInput :=
  match ev with
  | WindowEvent.KeyboardInput ElementState.Pressed k =>
      { s with
        keys_just_pressed :=
          if k ∈ s.keys_pressed then s.keys_just_pressed
          else insert k s.keys_just_pressed,
        keys_pressed := insert k s.keys_pressed }
  | WindowEvent.KeyboardInput ElementState.Released k =>
      { s with
        keys_pressed := s.keys_pressed.erase k,
        keys_just_released := insert k s.keys_just_released }
  | _ => s

/-- `KeyInput::end_frame`: clear both edge-triggered sets. -/
def end_frame (s : KeyInput) : KeyInput :=
  { s with keys_just_pressed := ∅, keys_just_released := ∅ }

/-- `KeyInput::key_down`. -/
def key_down (s : KeyInput) (k : Key) : Bool := k ∈ s.keys_pressed

/-- `KeyInput::key_just_pressed`. -/
def key_just_pressed (s : KeyInput) (k : Key) : Bool := k ∈ s.keys_just_pressed

/-- `KeyInput::key_just_released`. -/
def key_just_released (s : KeyInput) (k : Key) : Bool := k ∈ s.keys_just_released

end KeyInput

/-- A key-press event for key `k`. -/
def pressEv (k : Key) : WindowEvent :=
  WindowEvent.KeyboardInput ElementState.Pressed k

/-- Iterated ingestion of `n` consecutive press events for key `k`. -/
def pressN (k : Key) : ℕ → KeyInput → KeyInput
  | 0, s => s
  | n + 1, s => KeyInput.handle_event (pressEv k) (pressN k n s)

/-- The operations the event loop performs on the key latch. -/
inductive KOp where
  | handle (ev : WindowEvent)
  | endFrame
deriving DecidableEq

/-- One key-latch operation. -/
def stepK (s : KeyInput) (op : KOp) : KeyInput :=
  match op with
  | KOp.handle ev => KeyInput.handle_event ev s
  | KOp.endFrame => KeyInput.end_frame s

/-- Run a sequence of key-latch operations from a state. -/
def runK (ops : List KOp) (s : KeyInput) : KeyInput :=
  ops.foldl stepK s

/-- Key-latch states reachable from the initial state by some sequence of
`handle_event` and `end_frame` calls. -/
def KReachable (s : KeyInput) : Prop :=
  ∃ ops : List KOp, runK ops KeyInput.new = s

/-- A key-latch state sampled at a frame boundary: either the initial state
or the state right after some `end_frame` call on a reachable state. -/
def KAtBoundary (s : KeyInput) : Prop :=
  s = KeyInput.new ∨ ∃ t : KeyInput, KReachable t ∧ s = KeyInput.end_frame t

theorem handle_press_keys_pressed (k : Key) (s : KeyInput) :
    (KeyInput.handle_event (pressEv k) s).keys_pressed = insert k s.keys_pressed := rfl

theorem handle_press_press (k : Key) (s : KeyInput) :
    KeyInput.handle_event (pressEv k) (KeyInput.handle_event (pressEv k) s)
      = KeyInput.handle_event (pressEv k) s := by
  simp [KeyInput.handle_event, pressEv, Finset.insert_idem]

theorem pressN_succ_eq_one (k : Key) (n : ℕ) (s : KeyInput) :
    pressN k (n + 1) s = KeyInput.handle_event (pressEv k) s := by
  induction n with
  | zero => rfl
  | succ m ih =>
      show KeyInput.handle_event (pressEv k) (pressN k (m + 1) s)
        = KeyInput.handle_event (pressEv k) s
      rw [ih, handle_press_press]

/-- C1.  Key repeat suppression: ingesting any positive number of
consecutive press events for key `k` within one frame leaves the latch in
exactly the state one press would have produced; `pressed` contains `k`
afterwards, `just_pressed` contains `k` whenever `k` was not already held,
and after `end_frame` the set `just_pressed` is empty while `pressed`
still contains `k`. -/
theorem key_repeat_suppression (s : KeyInput) (k : Key) (n : ℕ) (hn : 1 ≤ n) :
    pressN k n s = KeyInput.handle_event (pressEv k) s
    ∧ KeyInput.key_down (pressN k n s) k = true
    ∧ (k ∉ s.keys_pressed → KeyInput.key_just_pressed (pressN k n s) k = true)
    ∧ (KeyInput.end_frame (pressN k n s)).keys_just_pressed = ∅
    ∧ KeyInput.key_down (KeyInput.end_frame (pressN k n s)) k = true := by
  obtain ⟨m, rfl⟩ : ∃ m, n = m + 1 := ⟨n - 1, (Nat.succ_pred_eq_of_pos hn).symm⟩
  rw [pressN_succ_eq_one]
  refine ⟨rfl, ?_, ?_, rfl, ?_⟩
  · simp [KeyInput.key_down, handle_press_keys_pressed]
  · intro hk
    simp [KeyInput.key_just_pressed, KeyInput.handle_event, pressEv, hk]
  · simp [KeyInput.key_down, KeyInput.end_frame, handle_press_keys_pressed]

theorem key_repeat_suppression_witness :
    pressN 0 3 KeyInput.new = KeyInput.handle_event (pressEv 0) KeyInput.new
    ∧ KeyInput.key_down (pressN 0 3 KeyInput.new) 0 = true
    ∧ KeyInput.key_just_pressed (pressN 0 3 KeyInput.new) 0 = true
    ∧ (KeyInput.end_frame (pressN 0 3 KeyInput.new)).keys_just_pressed = ∅
    ∧ KeyInput.key_down (KeyInput.end_frame (pressN 0 3 KeyInput.new)) 0 = true := by
  obtain ⟨h1, h2, h3, h4, h5⟩ :=
    key_repeat_suppression KeyInput.new 0 3 (by decide)
  exact ⟨h1, h2, h3 (by simp [KeyInput.new]), h4, h5⟩

/-- C2.  At every frame boundary (the initial state, or immediately after
`end_frame` on any reachable state), `just_pressed ⊆ pressed`: every key for
which `key_just_pressed` returns true also has `key_down` true. -/
theorem just_pressed_subset_pressed (s : KeyInput) (h : KAtBoundary s) :
    s.keys_just_pressed ⊆ s.keys_pressed := by
  rcases h with h | ⟨t, _, rfl⟩
  · subst h
    simp [KeyInput.new]
  · simp [KeyInput.end_frame]

theorem just_pressed_subset_pressed_witness :
    (KeyInput.end_frame (runK [KOp.handle (pressEv 0)] KeyInput.new)).keys_just_pressed
      ⊆ (KeyInput.end_frame (runK [KOp.handle (pressEv 0)] KeyInput.new)).keys_pressed :=
  just_pressed_subset_pressed _
    (Or.inr ⟨runK [KOp.handle (pressEv 0)] KeyInput.new, ⟨[KOp.handle (pressEv 0)], rfl⟩, rfl⟩)

/-- C6.  `end_frame` empties `just_pressed` and `just_released` and leaves
the `pressed` set exactly unchanged, in every key-latch state. -/
theorem end_frame_effect (s : KeyInput) :
    (KeyInput.end_frame s).keys_just_pressed = ∅
    ∧ (KeyInput.end_frame s).keys_just_released = ∅
    ∧ (KeyInput.end_frame s).keys_pressed = s.keys_pressed :=
  ⟨rfl, rfl, rfl⟩

/-! ## Pointer latch (`src/input/mouse_listener.rs`) -/

/-- State of `MouseInput`.  The Rust field order is kept; the getter
`is_dragging()` just returns the field, so the field accessor plays the
getter's role here. -/
structure MouseInput where
  scroll_x : ℚ
  scroll_y : ℚ
  x_pos : ℚ
  y_pos : ℚ
  last_y : ℚ
  last_x : ℚ
  mouse_button_pressed : Fin 3 → Bool
  is_dragging : Bool

namespace MouseInput

/-- `MouseInput::new`: everything zeroed, no button held, not dragging. -/
def new : MouseInput :=
  ⟨0, 0, 0, 0, 0, 0, fun _ => false, false⟩

/-- The index the listener assigns to a mouse button
(`Left ↦ 0`, `Right ↦ 1`, `Middle ↦ 2`; other buttons make the handler
return without touching the state). -/
def buttonIndex : MouseButton → Option (Fin 3)
  | MouseButton.Left => some 0
  | MouseButton.Right => some 1
  | MouseButton.Middle => some 2
  | MouseButton.OtherButton => none

/-- The `iter().any(|&b| b)` test over the three button slots. -/
def anyButton (b : Fin 3 → Bool) : Bool :=
  b 0 || b 1 || b 2

/-- The vertical scalar the wheel arm extracts from a scroll delta
(both `LineDelta` and `PixelDelta` contribute their `y` component). -/
def scrollVert : MouseScrollDelta → ℚ
  | MouseScrollDelta.LineDelta _ y => y
  | MouseScrollDelta.PixelDelta _ y => y

/-- `MouseInput::handle_event`.  Cursor motion shifts `(x_pos, y_pos)` into
`(last_x, last_y)`, stores the new position and recomputes `is_dragging`;
button events set or clear the indexed slot (release also clears
`is_dragging`); wheel events overwrite `scroll_y` with the vertical
component (the horizontal component is discarded, as in the source).
Every other window event is ignored. -/
def handle_event (ev : WindowEvent) (l : MouseInput) : MouseInput :=
  match ev with
  | WindowEvent.CursorMoved px py =>
      { l with
        last_x := l.x_pos,
        last_y := l.y_pos,
        x_pos := px,
        y_pos := py,
        is_dragging := anyButton l.mouse_button_pressed }
  | WindowEvent.MouseInputEv state button =>
      match buttonIndex button with
      | none => l
      | some index =>
          match state with
          | ElementState.Pressed =>
              { l with mouse_button_pressed :=
                  Function.update l.mouse_button_pressed index true }
          | ElementState.Released =>
              { l with
                mouse_button_pressed :=
                  Function.update l.mouse_button_pressed index false,
                is_dragging := false }
  | WindowEvent.MouseWheel delta =>
      { l with scroll_y := scrollVert delta }
  | _ => l

/-- `MouseInput::end_frame`: zero both scroll scalars and copy the current
position into the last position. -/
def end_frame (l : MouseInput) : MouseInput :=
  { l with
    scroll_x := 0,
    scroll_y := 0,
    last_x := l.x_pos,
    last_y := l.y_pos }

/-- `MouseInput::get_dx`. -/
def get_dx (l : MouseInput) : ℚ := l.last_x - l.x_pos

/-- `MouseInput::get_dy`. -/
def get_dy (l : MouseInput) : ℚ := l.last_y - l.y_pos

/-- `MouseInput::get_scroll_y`. -/
def get_scroll_y (l : MouseInput) : ℚ := l.scroll_y

/-- `MouseInput::mouse_button_down`: bounds-guarded read of the button
array, `false` for any index outside `0..3`. -/
def mouse_button_down (l : MouseInput) (button : ℕ) : Bool :=
  if h : button < 3 then l.mouse_button_pressed ⟨button, h⟩ else false

end MouseInput

/-- The operations the event loop performs on the pointer latch. -/
inductive MOp where
  | handle (ev : WindowEvent)
  | endFrame
deriving DecidableEq

/-- One pointer-latch operation. -/
def stepM (l : MouseInput) (op : MOp) : MouseInput :=
  match op with
  | MOp.handle ev => MouseInput.handle_event ev l
  | MOp.endFrame => MouseInput.end_frame l

/-- Run a sequence of pointer-latch operations from a state. -/
def runM (ops : List MOp) (l : MouseInput) : MouseInput :=
  ops.foldl stepM l

/-- Pointer-latch states reachable from the initial state by some sequence
of `handle_event` and `end_frame` calls. -/
def MReachable (l : MouseInput) : Prop :=
  ∃ ops : List MOp, runM ops MouseInput.new = l

/-- Whether an operation ingests a cursor-moved event. -/
def isCursorMove : MOp → Bool
  | MOp.handle (WindowEvent.CursorMoved _ _) => true
  | _ => false

/-- C5 counterexample.  Ingesting a wheel event whose horizontal component
is 2 (line delta `(2, 3)`) into the fresh latch leaves `scroll_x` at 0: the
horizontal component is discarded, so it is not stored into `scroll_x` as
the claim demands, while the vertical component does land in `scroll_y`. -/
theorem wheel_horizontal_dropped_cex :
    (MouseInput.handle_event (WindowEvent.MouseWheel (MouseScrollDelta.LineDelta 2 3))
        MouseInput.new).scroll_x = 0
    ∧ (MouseInput.handle_event (WindowEvent.MouseWheel (MouseScrollDelta.LineDelta 2 3))
        MouseInput.new).scroll_x ≠ 2
    ∧ (MouseInput.handle_event (WindowEvent.MouseWheel (MouseScrollDelta.LineDelta 2 3))
        MouseInput.new).scroll_y = 3 := by
  refine ⟨rfl, ?_, rfl⟩
  intro h
  exact absurd h (by decide)

/-- C5 amended.  A wheel event overwrites `scroll_y` with its vertical
component (line delta and pixel delta alike) and leaves `scroll_x`
unchanged: the horizontal component is discarded by the handler. -/
theorem wheel_sets_only_vertical (l : MouseInput) (delta : MouseScrollDelta) :
    (MouseInput.handle_event (WindowEvent.MouseWheel delta) l).scroll_x = l.scroll_x
    ∧ (MouseInput.handle_event (WindowEvent.MouseWheel delta) l).scroll_y
        = MouseInput.scrollVert delta :=
  ⟨rfl, rfl⟩

/-- C10.  Wheel deltas are overwritten, not accumulated: after ingesting any
nonempty run of wheel events, `get_scroll_y` returns the vertical component
of the last one, whatever the earlier deltas were. -/
theorem scroll_overwritten_not_accumulated (l : MouseInput)
    (ds : List MouseScrollDelta) (d : MouseScrollDelta)
    (h : ds.getLast? = some d) :
    MouseInput.get_scroll_y
        (ds.foldl (fun t dl => MouseInput.handle_event (WindowEvent.MouseWheel dl) t) l)
      = MouseInput.scrollVert d := by
  induction ds generalizing l with
  | nil => cases h
  | cons head tail ih =>
      cases tail with
      | nil =>
          simp only [List.getLast?_singleton, Option.some.injEq] at h
          subst h
          rfl
      | cons t ts =>
          rw [List.getLast?_cons_cons] at h
          exact ih (MouseInput.handle_event (WindowEvent.MouseWheel head) l) h

theorem scroll_overwritten_not_accumulated_witness :
    MouseInput.get_scroll_y
        ([MouseScrollDelta.LineDelta 0 1, MouseScrollDelta.PixelDelta 0 5].foldl
          (fun t dl => MouseInput.handle_event (WindowEvent.MouseWheel dl) t) MouseInput.new)
      = MouseInput.scrollVert (MouseScrollDelta.PixelDelta 0 5) :=
  scroll_overwritten_not_accumulated MouseInput.new
    [MouseScrollDelta.LineDelta 0 1, MouseScrollDelta.PixelDelta 0 5]
    (MouseScrollDelta.PixelDelta 0 5) rfl

/-- C9.  The bounds guard makes `mouse_button_down` total: every index
outside the 3-slot button array reads as `false`, in every state. -/
theorem mouse_button_down_out_of_range (l : MouseInput) (button : ℕ)
    (h : 3 ≤ button) :
    MouseInput.mouse_button_down l button = false := by
  unfold MouseInput.mouse_button_down
  rw [dif_neg (by omega)]

theorem mouse_button_down_out_of_range_witness :
    MouseInput.mouse_button_down MouseInput.new 5 = false :=
  mouse_button_down_out_of_range MouseInput.new 5 (by decide)

/-- The drag invariant: whenever `is_dragging` is set, some button slot is
set. -/
def DragInv (l : MouseInput) : Prop :=
  l.is_dragging = true → MouseInput.anyButton l.mouse_button_pressed = true

theorem anyButton_update_true (b : Fin 3 → Bool) (i : Fin 3) :
    MouseInput.anyButton (Function.update b i true) = true := by
  fin_cases i <;>
    simp [MouseInput.anyButton, Function.update_same]

theorem stepM_dragInv (l : MouseInput) (op : MOp) (h : DragInv l) :
    DragInv (stepM l op) := by
  cases op with
  | endFrame => exact h
  | handle ev =>
      cases ev with
      | KeyboardInput st k => exact h
      | CursorMoved px py => exact fun hd => hd
      | MouseWheel d => exact h
      | other => exact h
      | MouseInputEv st b =>
          cases b with
          | OtherButton => cases st <;> exact h
          | Left =>
              cases st with
              | Pressed => exact fun _ => anyButton_update_true l.mouse_button_pressed 0
              | Released => exact fun hd => absurd hd Bool.false_ne_true
          | Right =>
              cases st with
              | Pressed => exact fun _ => anyButton_update_true l.mouse_button_pressed 1
              | Released => exact fun hd => absurd hd Bool.false_ne_true
          | Middle =>
              cases st with
              | Pressed => exact fun _ => anyButton_update_true l.mouse_button_pressed 2
              | Released => exact fun hd => absurd hd Bool.false_ne_true

theorem runM_dragInv (ops : List MOp) :
    ∀ l : MouseInput, DragInv l → DragInv (runM ops l) := by
  induction ops with
  | nil => exact fun l h => h
  | cons op rest ih =>
      intro l h
      exact ih (stepM l op) (stepM_dragInv l op h)

theorem mouse_button_down_fin (l : MouseInput) (i : Fin 3) :
    MouseInput.mouse_button_down l i.val = l.mouse_button_pressed i := by
  unfold MouseInput.mouse_button_down
  rw [dif_pos i.isLt]

/-- C8.  In every reachable pointer-latch state, `is_dragging` implies some
button in the range 0..=2 is down. -/
theorem dragging_implies_button_down (l : MouseInput) (hr : MReachable l)
    (hd : l.is_dragging = true) :
    ∃ i : ℕ, i < 3 ∧ MouseInput.mouse_button_down l i = true := by
  obtain ⟨ops, rfl⟩ := hr
  have hinv : DragInv (runM ops MouseInput.new) :=
    runM_dragInv ops MouseInput.new (fun h => by simp [MouseInput.new] at h)
  have hany := hinv hd
  unfold MouseInput.anyButton at hany
  rcases Bool.or_eq_true_iff.mp hany with h2 | h2
  · rcases Bool.or_eq_true_iff.mp h2 with h3 | h3
    · exact ⟨0, by omega, by rw [show (0 : ℕ) = (0 : Fin 3).val from rfl,
        mouse_button_down_fin]; exact h3⟩
    · exact ⟨1, by omega, by rw [show (1 : ℕ) = (1 : Fin 3).val from rfl,
        mouse_button_down_fin]; exact h3⟩
  · exact ⟨2, by omega, by rw [show (2 : ℕ) = (2 : Fin 3).val from rfl,
      mouse_button_down_fin]; exact h2⟩

theorem dragging_implies_button_down_witness :
    ∃ i : ℕ, i < 3 ∧ MouseInput.mouse_button_down
      (runM [MOp.handle (WindowEvent.MouseInputEv ElementState.Pressed MouseButton.Left),
             MOp.handle (WindowEvent.CursorMoved 1 2)] MouseInput.new) i = true :=
  dragging_implies_button_down _
    ⟨[MOp.handle (WindowEvent.MouseInputEv ElementState.Pressed MouseButton.Left),
      MOp.handle (WindowEvent.CursorMoved 1 2)], rfl⟩
    (by decide)

theorem stepM_keeps_rest (l : MouseInput) (op : MOp)
    (hop : isCursorMove op = false)
    (hx : l.last_x = l.x_pos) (hy : l.last_y = l.y_pos) :
    (stepM l op).last_x = (stepM l op).x_pos
    ∧ (stepM l op).last_y = (stepM l op).y_pos := by
  cases op with
  | endFrame => exact ⟨rfl, rfl⟩
  | handle ev =>
      cases ev with
      | KeyboardInput st k => exact ⟨hx, hy⟩
      | CursorMoved px py => simp [isCursorMove] at hop
      | MouseWheel d => exact ⟨hx, hy⟩
      | other => exact ⟨hx, hy⟩
      | MouseInputEv st b => cases b <;> cases st <;> exact ⟨hx, hy⟩

theorem runM_keeps_rest (ops : List MOp) :
    ∀ l : MouseInput, (∀ op ∈ ops, isCursorMove op = false) →
      l.last_x = l.x_pos → l.last_y = l.y_pos →
      (runM ops l).last_x = (runM ops l).x_pos
      ∧ (runM ops l).last_y = (runM ops l).y_pos := by
  induction ops with
  | nil => exact fun l _ hx hy => ⟨hx, hy⟩
  | cons op rest ih =>
      intro l hops hx hy
      obtain ⟨hx2, hy2⟩ := stepM_keeps_rest l op (hops op (List.mem_cons_self op rest)) hx hy
      exact ih (stepM l op) (fun o ho => hops o (List.mem_cons_of_mem op ho)) hx2 hy2

/-- C7.  Immediately after `end_frame`: both scroll scalars are 0, the
deltas read through `get_dx`/`get_dy` are 0, and the position is unchanged;
the deltas stay 0 under any further operations that contain no cursor-moved
event. -/
theorem end_frame_pointer_effect (l : MouseInput) (ops : List MOp)
    (hops : ∀ op ∈ ops, isCursorMove op = false) :
    (MouseInput.end_frame l).scroll_x = 0
    ∧ (MouseInput.end_frame l).scroll_y = 0
    ∧ MouseInput.get_dx (MouseInput.end_frame l) = 0
    ∧ MouseInput.get_dy (MouseInput.end_frame l) = 0
    ∧ (MouseInput.end_frame l).x_pos = l.x_pos
    ∧ (MouseInput.end_frame l).y_pos = l.y_pos
    ∧ MouseInput.get_dx (runM ops (MouseInput.end_frame l)) = 0
    ∧ MouseInput.get_dy (runM ops (MouseInput.end_frame l)) = 0 := by
  obtain ⟨hx, hy⟩ := runM_keeps_rest ops (MouseInput.end_frame l) hops rfl rfl
  refine ⟨rfl, rfl, sub_self _, sub_self _, rfl, rfl, ?_, ?_⟩
  · unfold MouseInput.get_dx
    rw [hx, sub_self]
  · unfold MouseInput.get_dy
    rw [hy, sub_self]

theorem end_frame_pointer_effect_witness :
    (MouseInput.end_frame MouseInput.new).scroll_x = 0
    ∧ (MouseInput.end_frame MouseInput.new).scroll_y = 0
    ∧ MouseInput.get_dx (MouseInput.end_frame MouseInput.new) = 0
    ∧ MouseInput.get_dy (MouseInput.end_frame MouseInput.new) = 0
    ∧ (MouseInput.end_frame MouseInput.new).x_pos = MouseInput.new.x_pos
    ∧ (MouseInput.end_frame MouseInput.new).y_pos = MouseInput.new.y_pos
    ∧ MouseInput.get_dx (runM [MOp.handle (WindowEvent.MouseWheel
        (MouseScrollDelta.LineDelta 1 2)), MOp.endFrame,
        MOp.handle (WindowEvent.MouseInputEv ElementState.Pressed MouseButton.Left)]
        (MouseInput.end_frame MouseInput.new)) = 0
    ∧ MouseInput.get_dy (runM [MOp.handle (WindowEvent.MouseWheel
        (MouseScrollDelta.LineDelta 1 2)), MOp.endFrame,
        MOp.handle (WindowEvent.MouseInputEv ElementState.Pressed MouseButton.Left)]
        (MouseInput.end_frame MouseInput.new)) = 0 :=
  end_frame_pointer_effect MouseInput.new _ (by decide)

/-! ## GPU surface and redraw handling (`src/engine/window.rs`) -/

/-- winit `PhysicalSize<u32>`, the dimensions relevant here. -/
structure PhysicalSize where
  width : ℕ
  height : ℕ
deriving DecidableEq

/-- The swapchain-relevant part of `GpuState`: the stored window size, the
configured width and height of `SurfaceConfiguration`, and a log of every
configuration applied to the surface by `surface.configure(..)`.  The GPU
instance, adapter, device, queue, format and the remaining constant config
fields play no role in the claims and are external resources. -/
structure GpuState where
  size : PhysicalSize
  config_width : ℕ
  config_height : ℕ
  surface_configured : List (ℕ × ℕ)
deriving DecidableEq

namespace GpuState

/-- The swapchain-relevant effect of `GpuState::new_from_window`: the config
dimensions are the window inner size clamped to at least 1
(`size.width.max(1)`, `size.height.max(1)`), the surface is configured once
with them, and the raw inner size is stored. -/
def new_from_window (inner : PhysicalSize) : GpuState :=
  { size := inner,
    config_width := inner.width.max 1,
    config_height := inner.height.max 1,
    surface_configured := [(inner.width.max 1, inner.height.max 1)] }

/-- `GpuState::resize`: when both dimensions of `new_size` are positive,
store the new size, update the config dimensions and configure the surface;
otherwise do nothing. -/
def resize (new_size : PhysicalSize) (st : GpuState) : GpuState :=
  if 0 < new_size.width ∧ 0 < new_size.height then
    { st with
      size := new_size,
      config_width := new_size.width,
      config_height := new_size.height,
      surface_configured :=
        st.surface_configured ++ [(new_size.width, new_size.height)] }
  else st

/-- `GpuState::reconfigure`: re-apply the current config to the surface. -/
def reconfigure (st : GpuState) : GpuState :=
  { st with
    surface_configured :=
      st.surface_configured ++ [(st.config_width, st.config_height)] }

end GpuState

/-- Construction followed by a sequence of `resize` calls. -/
def resizeRun (inner : PhysicalSize) (rs : List PhysicalSize) : GpuState :=
  rs.foldl (fun g s => GpuState.resize s g) (GpuState.new_from_window inner)

/-- Modelled from the spec: the folding step that remembers the most recent
resize whose dimensions are both positive. -/
def lastNDStep (a : Option (ℕ × ℕ)) (s : PhysicalSize) : Option (ℕ × ℕ) :=
  if 0 < s.width ∧ 0 < s.height then some (s.width, s.height) else a

/-- Modelled from the spec: the width/height pair of the last resize call in
the sequence whose dimensions are both positive, if any.  This is the
spec's characterisation (the last non-degenerate resize), to be compared
with the configuration the code actually reaches. -/
def specLastNonDegenerate (rs : List PhysicalSize) : Option (ℕ × ℕ) :=
  rs.foldl lastNDStep none

theorem foldl_lastNDStep_getD (rs : List PhysicalSize) :
    ∀ (acc : Option (ℕ × ℕ)) (p : ℕ × ℕ),
      (rs.foldl lastNDStep acc).getD p
        = (specLastNonDegenerate rs).getD (acc.getD p) := by
  induction rs with
  | nil => exact fun acc p => rfl
  | cons s rest ih =>
      intro acc p
      show (rest.foldl lastNDStep (lastNDStep acc s)).getD p
        = (rest.foldl lastNDStep (lastNDStep none s)).getD (acc.getD p)
      rw [ih (lastNDStep acc s) p, ih (lastNDStep none s) (acc.getD p)]
      unfold lastNDStep
      by_cases h : 0 < s.width ∧ 0 < s.height
      · rw [if_pos h, if_pos h]
        rfl
      · rw [if_neg h, if_neg h]
        rfl

theorem resizeRun_config (rs : List PhysicalSize) :
    ∀ g : GpuState,
      ((rs.foldl (fun t s => GpuState.resize s t) g).config_width,
       (rs.foldl (fun t s => GpuState.resize s t) g).config_height)
        = (specLastNonDegenerate rs).getD (g.config_width, g.config_height) := by
  induction rs with
  | nil => exact fun g => rfl
  | cons s rest ih =>
      intro g
      show ((rest.foldl _ (GpuState.resize s g)).config_width,
            (rest.foldl _ (GpuState.resize s g)).config_height)
        = (rest.foldl lastNDStep (lastNDStep none s)).getD (g.config_width, g.config_height)
      rw [ih (GpuState.resize s g),
        foldl_lastNDStep_getD rest (lastNDStep none s) (g.config_width, g.config_height)]
      unfold GpuState.resize lastNDStep
      by_cases h : 0 < s.width ∧ 0 < s.height
      · rw [if_pos h, if_pos h]
        rfl
      · rw [if_neg h, if_neg h]
        rfl

theorem specLastNonDegenerate_pos (rs : List PhysicalSize) :
    ∀ acc : Option (ℕ × ℕ), (∀ p ∈ acc, 1 ≤ p.1 ∧ 1 ≤ p.2) →
      ∀ q ∈ rs.foldl lastNDStep acc, 1 ≤ q.1 ∧ 1 ≤ q.2 := by
  induction rs with
  | nil => exact fun acc hacc => hacc
  | cons s rest ih =>
      intro acc hacc
      refine ih _ ?_
      intro p hp
      unfold lastNDStep at hp
      by_cases h : 0 < s.width ∧ 0 < s.height
      · rw [if_pos h] at hp
        cases hp
        exact ⟨h.1, h.2⟩
      · rw [if_neg h] at hp
        exact hacc p hp

/-- C3.  The `resize` guard: a resize updates the config dimensions and
applies one more surface configuration exactly when both dimensions are
positive, and is a no-op otherwise; after construction and any sequence of
resize calls the configured dimensions are at least 1 and equal the last
non-degenerate resize, defaulting to the clamped initial window size. -/
theorem resize_guard_and_config (inner s : PhysicalSize)
    (rs : List PhysicalSize) (g : GpuState) :
    GpuState.resize s g
      = (if 0 < s.width ∧ 0 < s.height then
          { g with
            size := s,
            config_width := s.width,
            config_height := s.height,
            surface_configured := g.surface_configured ++ [(s.width, s.height)] }
        else g)
    ∧ ((GpuState.resize s g).surface_configured.length
          = g.surface_configured.length + 1
        ↔ (0 < s.width ∧ 0 < s.height))
    ∧ 1 ≤ (resizeRun inner rs).config_width
    ∧ 1 ≤ (resizeRun inner rs).config_height
    ∧ ((resizeRun inner rs).config_width, (resizeRun inner rs).config_height)
        = (specLastNonDegenerate rs).getD (inner.width.max 1, inner.height.max 1) := by
  have hrun : ((resizeRun inner rs).config_width, (resizeRun inner rs).config_height)
      = (specLastNonDegenerate rs).getD (inner.width.max 1, inner.height.max 1) :=
    resizeRun_config rs (GpuState.new_from_window inner)
  have hw : (resizeRun inner rs).config_width
      = ((specLastNonDegenerate rs).getD (inner.width.max 1, inner.height.max 1)).1 := by
    rw [← hrun]
  have hh : (resizeRun inner rs).config_height
      = ((specLastNonDegenerate rs).getD (inner.width.max 1, inner.height.max 1)).2 := by
    rw [← hrun]
  have hbounds : 1 ≤ (resizeRun inner rs).config_width
      ∧ 1 ≤ (resizeRun inner rs).config_height := by
    rcases ho : specLastNonDegenerate rs with _ | q
    · rw [ho] at hw hh
      constructor
      · rw [hw]
        exact Nat.le_max_right inner.width 1
      · rw [hh]
        exact Nat.le_max_right inner.height 1
    · have hq : 1 ≤ q.1 ∧ 1 ≤ q.2 :=
        specLastNonDegenerate_pos rs none (fun p hp => by cases hp) q
          (Option.mem_def.mpr ho)
      rw [ho] at hw hh
      exact ⟨hw ▸ hq.1, hh ▸ hq.2⟩
  refine ⟨rfl, ?_, hbounds.1, hbounds.2, hrun⟩
  constructor
  · intro hl
    by_contra h
    rw [GpuState.resize, if_neg h] at hl
    omega
  · intro h
    rw [GpuState.resize, if_pos h]
    simp

/-- wgpu `SurfaceError`, the variants `App::window_event` matches on. -/
inductive SurfaceError where
  | Lost
  | Outdated
  | OutOfMemory
  | Timeout
deriving DecidableEq

/-- The `RedrawRequested` arm of `App::window_event`, as a function of the
result of `state.render()` (`none` for `Ok(())`) and the window's current
inner size.  Returns the new GPU state and whether `event_loop.exit()` was
requested.  `Lost` and `Outdated` share one arm that calls
`state.resize(window.inner_size())`; `OutOfMemory` exits; `Timeout` only
skips the frame. -/
def redraw_step (res : Option SurfaceError) (inner : PhysicalSize)
    (st : GpuState) : GpuState × Bool :=
  match res with
  | none => (st, false)
  | some SurfaceError.Lost => (GpuState.resize inner st, false)
  | some SurfaceError.Outdated => (GpuState.resize inner st, false)
  | some SurfaceError.OutOfMemory => (st, true)
  | some SurfaceError.Timeout => (st, false)

/-- C4.  On a recoverable surface error (`Lost` or `Outdated`) the redraw
handler applies `resize` at the current window inner size — which applies a
fresh surface configuration whenever that size is non-degenerate — and does
not request loop exit. -/
theorem recoverable_error_reconfigures (st : GpuState) (inner : PhysicalSize)
    (e : SurfaceError) (he : e = SurfaceError.Lost ∨ e = SurfaceError.Outdated) :
    redraw_step (some e) inner st = (GpuState.resize inner st, false)
    ∧ (0 < inner.width ∧ 0 < inner.height →
        (redraw_step (some e) inner st).1.surface_configured
          = st.surface_configured ++ [(inner.width, inner.height)]) := by
  rcases he with he | he <;> subst he <;>
    refine ⟨rfl, fun h => ?_⟩ <;>
    · show (GpuState.resize inner st).surface_configured = _
      rw [GpuState.resize, if_pos h]

/-- A sample GPU state: the one construction yields for an 800×600 window. -/
def sampleGpu : GpuState := GpuState.new_from_window ⟨800, 600⟩

theorem recoverable_error_reconfigures_witness :
    redraw_step (some SurfaceError.Lost) ⟨640, 480⟩ sampleGpu
        = (GpuState.resize ⟨640, 480⟩ sampleGpu, false)
    ∧ (redraw_step (some SurfaceError.Lost) ⟨640, 480⟩ sampleGpu).1.surface_configured
        = sampleGpu.surface_configured ++ [(640, 480)] := by
  obtain ⟨h1, h2⟩ :=
    recoverable_error_reconfigures sampleGpu ⟨640, 480⟩ SurfaceError.Lost (Or.inl rfl)
  exact ⟨h1, h2 (by decide)⟩

end Kreeda
